import Mathlib

/-!
Shallow embedding of the carpark vehicle spawner scripts
spawn_carpark.py and spawn_carpark_static.py.

Real-valued quantities are modelled as rationals.  The transcendental
library functions used by the scripts (math.sqrt, and the composition
of math.degrees with math.atan2) are modelled as oracle parameters
carried in the Spawner structure, so theorems quantify over every
oracle or assume exactly the facts about the oracle that they need.
The ambient random source (the random module) is modelled as a stream
u of unit draws; a call random.uniform(a, b) consumes one draw r and
yields a + (b - a) * r, which is the CPython implementation of
uniform.  The call random.choice on the two element side list is
modelled as consuming one draw and picking index 0 when the draw is
below one half.  Python division raising ZeroDivisionError is
modelled by safeDiv into Option; a raised exception surfaces as
Except.error in generate_spawn_positions.
-/

attribute [local semireducible] Rat.mul Rat.add Rat.sub Rat.inv Rat.ofScientific

namespace CarparkSim

/-- Model of carla.Location and carla.Vector3D: a triple of rationals. -/
structure Vec3 where
  x : ℚ
  y : ℚ
  z : ℚ
deriving DecidableEq, Repr

/-- Model of carla.Rotation, fields in the carla order pitch, yaw, roll. -/
structure Rot where
  pitch : ℚ
  yaw : ℚ
  roll : ℚ
deriving DecidableEq, Repr

/-- Model of carla.Transform: a location and a rotation. -/
structure Transform where
  loc : Vec3
  rot : Rot
deriving DecidableEq, Repr

/-- Exceptions the spawner code can raise: the ValueError for an invalid
side_type string, and ZeroDivisionError from Python division. -/
inductive SpawnErr where
  | invalidSide (sideType : String)
  | zeroDivision
deriving DecidableEq, Repr

/-- Parameters and external collaborators of a CarparkVehicleSpawner
instance: the world ray cast (returning the list of hit locations),
the spawn_height and parking_offset constructor arguments, and the
numeric oracles standing for math.sqrt and for math.degrees composed
with math.atan2. -/
structure Spawner where
  castRay : Vec3 → Vec3 → List Vec3
  spawn_height : ℚ
  parking_offset : ℚ
  sqrtQ : ℚ → ℚ
  atan2deg : ℚ → ℚ → ℚ

/-- Model of Python division: ZeroDivisionError becomes none. -/
def safeDiv (a b : ℚ) : Option ℚ :=
  if b = 0 then none else some (a / b)

/-- Model of the Python int() conversion on a real number: truncation
toward zero, which on a reduced fraction is the truncating integer
division of the numerator by the denominator. -/
def truncQ (q : ℚ) : ℤ :=
  q.num.tdiv q.den

/-- Model of random.uniform(a, b) applied to a unit draw r: CPython
computes a + (b - a) * random(). -/
def uniformQ (a b r : ℚ) : ℚ :=
  a + (b - a) * r

end CarparkSim

namespace Carpark

open CarparkSim

/-- Embedding of CarparkVehicleSpawner.get_ground_height from
spawn_carpark.py lines 49 to 71: cast a vertical ray spanning 1000
units above and below, return the z of the first hit, and fall back
to the original z when there is no hit. -/
def get_ground_height (S : Spawner) (location : Vec3) : ℚ :=
  let start_location : Vec3 := ⟨location.x, location.y, location.z + 1000⟩
  let end_location : Vec3 := ⟨location.x, location.y, location.z - 1000⟩
  match S.castRay start_location end_location with
  | [] => location.z
  | h :: _ => h.z

/-- Embedding of CarparkVehicleSpawner.compute_perpendicular_vector from
spawn_carpark.py lines 73 to 118.  Every Python division is modelled by
safeDiv, so the result is none exactly when the Python code would raise
ZeroDivisionError.  Returns the pair (perpendicular, line direction). -/
def compute_perpendicular_vector (S : Spawner) (start_loc end_loc : Vec3) :
    Option (Vec3 × Vec3) :=
  let line_vec : Vec3 :=
    ⟨end_loc.x - start_loc.x, end_loc.y - start_loc.y, end_loc.z - start_loc.z⟩
  let line_length := S.sqrtQ (line_vec.x ^ 2 + line_vec.y ^ 2 + line_vec.z ^ 2)
  if line_length < 1/1000 then
    some (⟨1, 0, 0⟩, ⟨1, 0, 0⟩)
  else
    match safeDiv line_vec.x line_length, safeDiv line_vec.y line_length,
        safeDiv line_vec.z line_length with
    | some dx, some dy, some dz =>
      let line_dir : Vec3 := ⟨dx, dy, dz⟩
      let perp0 : Vec3 := ⟨-line_dir.y, line_dir.x, 0⟩
      let perp_length := S.sqrtQ (perp0.x ^ 2 + perp0.y ^ 2)
      if perp_length > 1/1000 then
        match safeDiv perp0.x perp_length, safeDiv perp0.y perp_length with
        | some px, some py => some (⟨px, py, 0⟩, line_dir)
        | _, _ => none
      else
        some (⟨1, 0, 0⟩, line_dir)
    | _, _, _ => none

/-- Embedding of the primary placement pass, spawn_carpark.py lines 171
to 179: for each of the remaining iterations draw a spacing uniformly
from min_spacing up to twice min_spacing, break when the advanced
cumulative position would pass the line length, otherwise append the
current position and advance.  Returns the appended positions, the
final cumulative position and the next draw index. -/
def primaryPass (min_spacing line_length : ℚ) (u : ℕ → ℚ) :
    ℕ → ℚ → ℕ → List ℚ × ℚ × ℕ
  | 0, current_pos, k => ([], current_pos, k)
  | n + 1, current_pos, k =>
    if current_pos + (min_spacing + uniformQ 0 min_spacing (u k)) > line_length then
      ([], current_pos, k + 1)
    else
      let r := primaryPass min_spacing line_length u n
        (current_pos + (min_spacing + uniformQ 0 min_spacing (u k))) (k + 1)
      (current_pos :: r.1, r.2)

/-- Embedding of the backfill pass, spawn_carpark.py lines 182 to 188:
while fewer positions than requested exist and the cumulative position
is below the line length, draw a tighter spacing uniformly from
min_spacing up to one and a half times min_spacing, append and advance
when it fits, otherwise break.  The fuel argument is the number of
still missing positions, which bounds the loop. -/
def backfillPass (min_spacing line_length : ℚ) (u : ℕ → ℚ) :
    ℕ → ℚ → ℕ → List ℚ × ℚ × ℕ
  | 0, current_pos, k => ([], current_pos, k)
  | n + 1, current_pos, k =>
    if current_pos < line_length then
      if current_pos + (min_spacing + uniformQ 0 (min_spacing * (1/2)) (u k)) ≤ line_length then
        let r := backfillPass min_spacing line_length u n
          (current_pos + (min_spacing + uniformQ 0 (min_spacing * (1/2)) (u k))) (k + 1)
        (current_pos :: r.1, r.2)
      else
        ([], current_pos, k + 1)
    else
      ([], current_pos, k)

/-- Sequencing of the two passes from cumulative position 0 and draw
index 0, spawn_carpark.py lines 168 to 188, for an already clamped
effective count nv. -/
def positionsPasses (min_spacing line_length : ℚ) (nv : ℤ) (u : ℕ → ℚ) :
    List ℚ × ℚ × ℕ :=
  let p := primaryPass min_spacing line_length u nv.toNat 0 0
  let b := backfillPass min_spacing line_length u (nv - (p.1.length : ℤ)).toNat p.2.1 p.2.2
  (p.1 ++ b.1, b.2)

/-- The Packer stage of generate_spawn_positions, spawn_carpark.py lines
159 to 188: capacity clamp by int(line_length / min_spacing) followed by
the primary and backfill passes.  The plain rational division here
agrees with safeDiv whenever min_spacing is nonzero. -/
def packPositions (min_spacing line_length : ℚ) (num_vehicles : ℤ) (u : ℕ → ℚ) :
    List ℚ :=
  let max_vehicles := truncQ (line_length / min_spacing)
  let nv := if num_vehicles > max_vehicles then max_vehicles else num_vehicles
  (positionsPasses min_spacing line_length nv u).1

/-- Embedding of the side list dispatch, spawn_carpark.py lines 141 to
150: the ValueError for an unknown side_type becomes an error value. -/
def sidesToUse (side_type : String) : Except SpawnErr (List String) :=
  if side_type = "left" then .ok ["left"]
  else if side_type = "right" then .ok ["right"]
  else if side_type = "both" then .ok ["left", "right"]
  else .error (.invalidSide side_type)

/-- Embedding of the interpolated point on the line, spawn_carpark.py
lines 196 to 201: parameter t is the position divided by the line
length when that length is positive, else 0. -/
def interpPoint (start_loc end_loc : Vec3) (line_length pos : ℚ) : Vec3 :=
  let t := if line_length > 0 then pos / line_length else 0
  ⟨start_loc.x + t * (end_loc.x - start_loc.x),
   start_loc.y + t * (end_loc.y - start_loc.y),
   start_loc.z + t * (end_loc.z - start_loc.z)⟩

/-- Embedding of the per position pose synthesis, spawn_carpark.py lines
195 to 235, for an already chosen side and an already drawn jitter unit
draw: perpendicular offset, ground height resolution with spawn height
bias, and yaw from the line bearing plus or minus 90 degrees with a
uniform perturbation drawn from the interval from minus 2 to 2. -/
def synthesizePose (S : Spawner) (start_loc end_loc : Vec3) (line_length : ℚ)
    (perp_vec line_dir : Vec3) (pos : ℚ) (side : String) (jitterDraw : ℚ) : Transform :=
  let line_pos := interpPoint start_loc end_loc line_length pos
  let offset_direction : ℚ := if side = "right" then 1 else -1
  let parking_pos : Vec3 :=
    ⟨line_pos.x + offset_direction * S.parking_offset * perp_vec.x,
     line_pos.y + offset_direction * S.parking_offset * perp_vec.y,
     line_pos.z⟩
  let ground_z := get_ground_height S parking_pos
  let base_yaw := S.atan2deg line_dir.y line_dir.x
  let yaw0 :=
    if side = "left" then base_yaw + 90
    else if side = "right" then base_yaw - 90
    else if side = "left" then base_yaw + 90 else base_yaw - 90
  let yaw := yaw0 + uniformQ (-2) 2 jitterDraw
  ⟨⟨parking_pos.x, parking_pos.y, ground_z + S.spawn_height⟩, ⟨0, yaw, 0⟩⟩

/-- Embedding of the transform construction loop, spawn_carpark.py lines
191 to 237: for each position choose the side (consuming a draw only
when both sides are in play), then synthesize the pose, consuming one
more draw for the yaw jitter. -/
def transformLoop (S : Spawner) (start_loc end_loc : Vec3) (line_length : ℚ)
    (perp_vec line_dir : Vec3) (sides_to_use : List String) (u : ℕ → ℚ) :
    List ℚ → ℕ → List (Transform × String)
  | [], _ => []
  | pos :: rest, k =>
    let sidek : String × ℕ :=
      if sides_to_use.length > 1 then
        ((if u k < 1/2 then sides_to_use.getD 0 "left" else sides_to_use.getD 1 "right"), k + 1)
      else
        (sides_to_use.getD 0 "left", k)
    let tr := synthesizePose S start_loc end_loc line_length perp_vec line_dir
      pos sidek.1 (u sidek.2)
    (tr, sidek.1) ::
      transformLoop S start_loc end_loc line_length perp_vec line_dir sides_to_use u
        rest (sidek.2 + 1)

/-- Embedding of CarparkVehicleSpawner.generate_spawn_positions from
spawn_carpark.py lines 120 to 239, following the source order: resolve
the perpendicular and direction vectors, validate the side_type,
compute the line length, clamp the count by the capacity
int(line_length / min_spacing), run the two placement passes, and turn
each position into a transform and side pair. -/
def generate_spawn_positions (S : Spawner) (start_loc end_loc : Vec3)
    (side_type : String) (num_vehicles : ℤ) (min_spacing : ℚ) (u : ℕ → ℚ) :
    Except SpawnErr (List (Transform × String)) :=
  match compute_perpendicular_vector S start_loc end_loc with
  | none => .error .zeroDivision
  | some (perp_vec, line_dir) =>
    match sidesToUse side_type with
    | .error e => .error e
    | .ok sides_to_use =>
      let line_length := S.sqrtQ ((end_loc.x - start_loc.x) ^ 2 +
        (end_loc.y - start_loc.y) ^ 2 + (end_loc.z - start_loc.z) ^ 2)
      match safeDiv line_length min_spacing with
      | none => .error .zeroDivision
      | some ratio =>
        let max_vehicles := truncQ ratio
        let nv := if num_vehicles > max_vehicles then max_vehicles else num_vehicles
        let pk := positionsPasses min_spacing line_length nv u
        .ok (transformLoop S start_loc end_loc line_length perp_vec line_dir
          sides_to_use u pk.1 pk.2.2)

/-- Model of a vehicle blueprint: only the id string matters to the
filtering code. -/
structure Blueprint where
  id : String
deriving DecidableEq, Repr

/-- Occurrence of the first list at the start of the second list. -/
def hasStart : List Char → List Char → Bool
  | [], _ => true
  | _ :: _, [] => false
  | a :: as, b :: bs => a = b && hasStart as bs

/-- Occurrence of the first list anywhere inside the second list. -/
def hasSub (needle : List Char) : List Char → Bool
  | [] => hasStart needle []
  | c :: cs => hasStart needle (c :: cs) || hasSub needle cs

/-- Model of the Python substring test: keyword in text, on the
character lists of the two strings. -/
def strContains (text keyword : List Char) : Bool :=
  hasSub keyword text

/-- Embedding of the exclusion predicate of filter_vehicles_for_line,
spawn_carpark.py lines 257 to 258: the blueprint id, lowercased
character by character, contains some lowercased exclude keyword. -/
def is_excluded (exclude_keywords : List String) (bp : Blueprint) : Bool :=
  exclude_keywords.any fun keyword =>
    strContains (bp.id.data.map Char.toLower) (keyword.data.map Char.toLower)

/-- Embedding of CarparkVehicleSpawner.filter_vehicles_for_line from
spawn_carpark.py lines 241 to 263: a None keyword list defaults to the
empty list, then the loop keeps, in order, every blueprint that is not
excluded. -/
def filter_vehicles_for_line (vehicle_blueprints : List Blueprint)
    (exclude_keywords : Option (List String)) : List Blueprint :=
  let kws := exclude_keywords.getD []
  vehicle_blueprints.foldl
    (fun filtered bp => if is_excluded kws bp then filtered else filtered ++ [bp]) []

end Carpark

namespace CarparkStatic

open CarparkSim

/-- Embedding of StaticCarparkVehicleSpawner.get_ground_height from
spawn_carpark_static.py lines 76 to 98, written from that file. -/
def get_ground_height (S : Spawner) (location : Vec3) : ℚ :=
  let start_location : Vec3 := ⟨location.x, location.y, location.z + 1000⟩
  let end_location : Vec3 := ⟨location.x, location.y, location.z - 1000⟩
  match S.castRay start_location end_location with
  | [] => location.z
  | h :: _ => h.z

/-- Embedding of StaticCarparkVehicleSpawner.compute_perpendicular_vector
from spawn_carpark_static.py lines 100 to 145, written from that file. -/
def compute_perpendicular_vector (S : Spawner) (start_loc end_loc : Vec3) :
    Option (Vec3 × Vec3) :=
  let line_vec : Vec3 :=
    ⟨end_loc.x - start_loc.x, end_loc.y - start_loc.y, end_loc.z - start_loc.z⟩
  let line_length := S.sqrtQ (line_vec.x ^ 2 + line_vec.y ^ 2 + line_vec.z ^ 2)
  if line_length < 1/1000 then
    some (⟨1, 0, 0⟩, ⟨1, 0, 0⟩)
  else
    match safeDiv line_vec.x line_length, safeDiv line_vec.y line_length,
        safeDiv line_vec.z line_length with
    | some dx, some dy, some dz =>
      let line_dir : Vec3 := ⟨dx, dy, dz⟩
      let perp0 : Vec3 := ⟨-line_dir.y, line_dir.x, 0⟩
      let perp_length := S.sqrtQ (perp0.x ^ 2 + perp0.y ^ 2)
      if perp_length > 1/1000 then
        match safeDiv perp0.x perp_length, safeDiv perp0.y perp_length with
        | some px, some py => some (⟨px, py, 0⟩, line_dir)
        | _, _ => none
      else
        some (⟨1, 0, 0⟩, line_dir)
    | _, _, _ => none

/-- Embedding of the primary placement pass of spawn_carpark_static.py,
lines 198 to 206, written from that file. -/
def primaryPass (min_spacing line_length : ℚ) (u : ℕ → ℚ) :
    ℕ → ℚ → ℕ → List ℚ × ℚ × ℕ
  | 0, current_pos, k => ([], current_pos, k)
  | n + 1, current_pos, k =>
    if current_pos + (min_spacing + uniformQ 0 min_spacing (u k)) > line_length then
      ([], current_pos, k + 1)
    else
      let r := primaryPass min_spacing line_length u n
        (current_pos + (min_spacing + uniformQ 0 min_spacing (u k))) (k + 1)
      (current_pos :: r.1, r.2)

/-- Embedding of the backfill pass of spawn_carpark_static.py, lines 209
to 215, written from that file. -/
def backfillPass (min_spacing line_length : ℚ) (u : ℕ → ℚ) :
    ℕ → ℚ → ℕ → List ℚ × ℚ × ℕ
  | 0, current_pos, k => ([], current_pos, k)
  | n + 1, current_pos, k =>
    if current_pos < line_length then
      if current_pos + (min_spacing + uniformQ 0 (min_spacing * (1/2)) (u k)) ≤ line_length then
        let r := backfillPass min_spacing line_length u n
          (current_pos + (min_spacing + uniformQ 0 (min_spacing * (1/2)) (u k))) (k + 1)
        (current_pos :: r.1, r.2)
      else
        ([], current_pos, k + 1)
    else
      ([], current_pos, k)

/-- Sequencing of the two passes of spawn_carpark_static.py from
cumulative position 0 and draw index 0, lines 195 to 215. -/
def positionsPasses (min_spacing line_length : ℚ) (nv : ℤ) (u : ℕ → ℚ) :
    List ℚ × ℚ × ℕ :=
  let p := primaryPass min_spacing line_length u nv.toNat 0 0
  let b := backfillPass min_spacing line_length u (nv - (p.1.length : ℤ)).toNat p.2.1 p.2.2
  (p.1 ++ b.1, b.2)

/-- Embedding of the side list dispatch of spawn_carpark_static.py,
lines 168 to 177, written from that file. -/
def sidesToUse (side_type : String) : Except SpawnErr (List String) :=
  if side_type = "left" then .ok ["left"]
  else if side_type = "right" then .ok ["right"]
  else if side_type = "both" then .ok ["left", "right"]
  else .error (.invalidSide side_type)

/-- Embedding of the interpolated point on the line, lines 222 to 228 of
spawn_carpark_static.py. -/
def interpPoint (start_loc end_loc : Vec3) (line_length pos : ℚ) : Vec3 :=
  let t := if line_length > 0 then pos / line_length else 0
  ⟨start_loc.x + t * (end_loc.x - start_loc.x),
   start_loc.y + t * (end_loc.y - start_loc.y),
   start_loc.z + t * (end_loc.z - start_loc.z)⟩

/-- Embedding of the per position pose synthesis of
spawn_carpark_static.py, lines 222 to 262, written from that file. -/
def synthesizePose (S : Spawner) (start_loc end_loc : Vec3) (line_length : ℚ)
    (perp_vec line_dir : Vec3) (pos : ℚ) (side : String) (jitterDraw : ℚ) : Transform :=
  let line_pos := interpPoint start_loc end_loc line_length pos
  let offset_direction : ℚ := if side = "right" then 1 else -1
  let parking_pos : Vec3 :=
    ⟨line_pos.x + offset_direction * S.parking_offset * perp_vec.x,
     line_pos.y + offset_direction * S.parking_offset * perp_vec.y,
     line_pos.z⟩
  let ground_z := get_ground_height S parking_pos
  let base_yaw := S.atan2deg line_dir.y line_dir.x
  let yaw0 :=
    if side = "left" then base_yaw + 90
    else if side = "right" then base_yaw - 90
    else if side = "left" then base_yaw + 90 else base_yaw - 90
  let yaw := yaw0 + uniformQ (-2) 2 jitterDraw
  ⟨⟨parking_pos.x, parking_pos.y, ground_z + S.spawn_height⟩, ⟨0, yaw, 0⟩⟩

/-- Embedding of the transform construction loop of
spawn_carpark_static.py, lines 217 to 264, written from that file. -/
def transformLoop (S : Spawner) (start_loc end_loc : Vec3) (line_length : ℚ)
    (perp_vec line_dir : Vec3) (sides_to_use : List String) (u : ℕ → ℚ) :
    List ℚ → ℕ → List (Transform × String)
  | [], _ => []
  | pos :: rest, k =>
    let sidek : String × ℕ :=
      if sides_to_use.length > 1 then
        ((if u k < 1/2 then sides_to_use.getD 0 "left" else sides_to_use.getD 1 "right"), k + 1)
      else
        (sides_to_use.getD 0 "left", k)
    let tr := synthesizePose S start_loc end_loc line_length perp_vec line_dir
      pos sidek.1 (u sidek.2)
    (tr, sidek.1) ::
      transformLoop S start_loc end_loc line_length perp_vec line_dir sides_to_use u
        rest (sidek.2 + 1)

/-- Embedding of StaticCarparkVehicleSpawner.generate_spawn_positions
from spawn_carpark_static.py lines 147 to 266, written from that file. -/
def generate_spawn_positions (S : Spawner) (start_loc end_loc : Vec3)
    (side_type : String) (num_vehicles : ℤ) (min_spacing : ℚ) (u : ℕ → ℚ) :
    Except SpawnErr (List (Transform × String)) :=
  match compute_perpendicular_vector S start_loc end_loc with
  | none => .error .zeroDivision
  | some (perp_vec, line_dir) =>
    match sidesToUse side_type with
    | .error e => .error e
    | .ok sides_to_use =>
      let line_length := S.sqrtQ ((end_loc.x - start_loc.x) ^ 2 +
        (end_loc.y - start_loc.y) ^ 2 + (end_loc.z - start_loc.z) ^ 2)
      match safeDiv line_length min_spacing with
      | none => .error .zeroDivision
      | some ratio =>
        let max_vehicles := truncQ ratio
        let nv := if num_vehicles > max_vehicles then max_vehicles else num_vehicles
        let pk := positionsPasses min_spacing line_length nv u
        .ok (transformLoop S start_loc end_loc line_length perp_vec line_dir
          sides_to_use u pk.1 pk.2.2)

end CarparkStatic

section Sanity

open CarparkSim Carpark

example : truncQ (10 / (-1 : ℚ)) = -10 := by decide

example : packPositions 1 10 3 (fun _ => 0) = [0, 1, 2] := by decide

example : packPositions (-1) 10 5 (fun _ => 0) = [] := by decide

example : ∀ (S : Spawner) (l : Vec3),
    Carpark.get_ground_height S l = CarparkStatic.get_ground_height S l :=
  fun _ _ => rfl

example : ∀ (S : Spawner) (a b : Vec3),
    Carpark.compute_perpendicular_vector S a b =
      CarparkStatic.compute_perpendicular_vector S a b :=
  fun _ _ _ => rfl

example : ∀ st, Carpark.sidesToUse st = CarparkStatic.sidesToUse st := fun _ => rfl

example : ∀ a b L p, Carpark.interpPoint a b L p = CarparkStatic.interpPoint a b L p :=
  fun _ _ _ _ => rfl

example : ∀ S a b L pv ld p sd j,
    Carpark.synthesizePose S a b L pv ld p sd j =
      CarparkStatic.synthesizePose S a b L pv ld p sd j :=
  fun _ _ _ _ _ _ _ _ _ => rfl

example : ∀ mS L u n c k,
    Carpark.primaryPass mS L u n c k = CarparkStatic.primaryPass mS L u n c k := by
  intro mS L u n
  induction n with
  | zero => intro c k; rfl
  | succ n ih =>
    intro c k
    simp only [Carpark.primaryPass, CarparkStatic.primaryPass, ih]

end Sanity

namespace CarparkSim

theorem truncQ_eq_floor {q : ℚ} (h : 0 ≤ q) : truncQ q = ⌊q⌋ := by
  unfold truncQ
  rw [Int.tdiv_eq_ediv (Rat.num_nonneg.mpr h) (Int.ofNat_nonneg _), Rat.floor_def]

theorem truncQ_nonpos {q : ℚ} (h : q ≤ 0) : truncQ q ≤ 0 := by
  have hnum : q.num ≤ 0 := by
    by_contra hlt
    push_neg at hlt
    exact absurd (Rat.num_pos.mp hlt) (not_lt.mpr h)
  have h2 : (0 : ℤ) ≤ (q.den : ℤ) := Int.ofNat_nonneg _
  have h3 : 0 ≤ (-q.num).tdiv q.den := Int.tdiv_nonneg (by omega) h2
  have h4 : (-q.num).tdiv (q.den : ℤ) = -(q.num.tdiv q.den) := Int.neg_tdiv _ _
  unfold truncQ
  omega

theorem spacing_primary_ge {m r : ℚ} (hS : 0 < m) (hr : 0 ≤ r) :
    m ≤ m + uniformQ 0 m r := by
  have := mul_nonneg hS.le hr
  simp only [uniformQ]
  linarith

theorem spacing_primary_lt {m r : ℚ} (hS : 0 < m) (hr : r < 1) :
    m + uniformQ 0 m r < 2 * m := by
  have := (mul_lt_mul_of_pos_left hr hS)
  simp only [uniformQ]
  linarith

theorem spacing_backfill_ge {m r : ℚ} (hS : 0 < m) (hr : 0 ≤ r) :
    m ≤ m + uniformQ 0 (m * (1/2)) r := by
  have : 0 ≤ m * (1/2) * r := by positivity
  simp only [uniformQ]
  linarith

theorem spacing_backfill_lt {m r : ℚ} (hS : 0 < m) (hr0 : 0 ≤ r) (hr : r < 1) :
    m + uniformQ 0 (m * (1/2)) r < 2 * m := by
  have h1 : m * (1/2) * r < m * (1/2) * 1 := by
    rcases eq_or_lt_of_le hr0 with he | hl
    · rw [← he]; nlinarith
    · exact mul_lt_mul_of_pos_left hr (by positivity)
  simp only [uniformQ]
  nlinarith

end CarparkSim

namespace Carpark

open CarparkSim

theorem primaryPass_length (m L : ℚ) (u : ℕ → ℚ) :
    ∀ (n : ℕ) (c : ℚ) (k : ℕ), (primaryPass m L u n c k).1.length ≤ n := by
  intro n
  induction n with
  | zero => intro c k; simp [primaryPass]
  | succ n ih =>
    intro c k
    by_cases h : c + (m + uniformQ 0 m (u k)) > L
    · simp [primaryPass, h]
    · simp only [primaryPass, if_neg h, List.length_cons]
      exact Nat.succ_le_succ (ih _ _)

theorem backfillPass_succ (m L : ℚ) (u : ℕ → ℚ) (n : ℕ) (c : ℚ) (k : ℕ) :
    backfillPass m L u (n + 1) c k =
      if c < L then
        if c + (m + uniformQ 0 (m * (1/2)) (u k)) ≤ L then
          ((c :: (backfillPass m L u n (c + (m + uniformQ 0 (m * (1/2)) (u k))) (k + 1)).1,
            (backfillPass m L u n (c + (m + uniformQ 0 (m * (1/2)) (u k))) (k + 1)).2))
        else ([], c, k + 1)
      else ([], c, k) := rfl

theorem backfillPass_length (m L : ℚ) (u : ℕ → ℚ) :
    ∀ (n : ℕ) (c : ℚ) (k : ℕ), (backfillPass m L u n c k).1.length ≤ n := by
  intro n
  induction n with
  | zero => intro c k; simp [backfillPass]
  | succ n ih =>
    intro c k
    rw [backfillPass_succ]
    by_cases h1 : c < L
    · rw [if_pos h1]
      by_cases h2 : c + (m + uniformQ 0 (m * (1/2)) (u k)) ≤ L
      · rw [if_pos h2]
        simpa using ih _ _
      · rw [if_neg h2]
        simp
    · rw [if_neg h1]
      simp

theorem primaryPass_head (m L : ℚ) (u : ℕ → ℚ) (n : ℕ) (c : ℚ) (k : ℕ) :
    ((primaryPass m L u n c k).1 ++ [(primaryPass m L u n c k).2.1]).head? = some c := by
  cases n with
  | zero => simp [primaryPass]
  | succ n =>
    by_cases h : c + (m + uniformQ 0 m (u k)) > L
    · simp [primaryPass, h]
    · simp [primaryPass, h]

theorem backfillPass_head (m L : ℚ) (u : ℕ → ℚ) (n : ℕ) (c : ℚ) (k : ℕ) :
    ((backfillPass m L u n c k).1 ++ [(backfillPass m L u n c k).2.1]).head? = some c := by
  cases n with
  | zero => simp [backfillPass]
  | succ n =>
    rw [backfillPass_succ]
    by_cases h1 : c < L
    · rw [if_pos h1]
      by_cases h2 : c + (m + uniformQ 0 (m * (1/2)) (u k)) ≤ L
      · rw [if_pos h2]
        simp
      · rw [if_neg h2]
        simp
    · rw [if_neg h1]
      simp

theorem primaryPass_cur_le {m : ℚ} (L : ℚ) (u : ℕ → ℚ) (hS : 0 < m)
    (hu : ∀ i, 0 ≤ u i) :
    ∀ (n : ℕ) (c : ℚ) (k : ℕ), c ≤ (primaryPass m L u n c k).2.1 := by
  intro n
  induction n with
  | zero => intro c k; simp [primaryPass]
  | succ n ih =>
    intro c k
    by_cases h : c + (m + uniformQ 0 m (u k)) > L
    · simp [primaryPass, h]
    · simp only [primaryPass, if_neg h]
      have h1 : m ≤ m + uniformQ 0 m (u k) := spacing_primary_ge hS (hu k)
      have h2 := ih (c + (m + uniformQ 0 m (u k))) (k + 1)
      linarith

theorem backfillPass_cur_le {m : ℚ} (L : ℚ) (u : ℕ → ℚ) (hS : 0 < m)
    (hu : ∀ i, 0 ≤ u i) :
    ∀ (n : ℕ) (c : ℚ) (k : ℕ), c ≤ (backfillPass m L u n c k).2.1 := by
  intro n
  induction n with
  | zero => intro c k; simp [backfillPass]
  | succ n ih =>
    intro c k
    rw [backfillPass_succ]
    by_cases h1 : c < L
    · rw [if_pos h1]
      by_cases h2 : c + (m + uniformQ 0 (m * (1/2)) (u k)) ≤ L
      · rw [if_pos h2]
        have h3 : m ≤ m + uniformQ 0 (m * (1/2)) (u k) := spacing_backfill_ge hS (hu k)
        have h4 := ih (c + (m + uniformQ 0 (m * (1/2)) (u k))) (k + 1)
        dsimp only
        linarith
      · rw [if_neg h2]
    · rw [if_neg h1]

theorem primaryPass_mem {m L : ℚ} (u : ℕ → ℚ) (hS : 0 < m) (hu : ∀ i, 0 ≤ u i) :
    ∀ (n : ℕ) (c : ℚ) (k : ℕ), ∀ x ∈ (primaryPass m L u n c k).1,
      c ≤ x ∧ x + m ≤ L := by
  intro n
  induction n with
  | zero => intro c k; simp [primaryPass]
  | succ n ih =>
    intro c k x hx
    by_cases h : c + (m + uniformQ 0 m (u k)) > L
    · simp [primaryPass, h] at hx
    · simp only [primaryPass, if_neg h, List.mem_cons] at hx
      have hsp : m ≤ m + uniformQ 0 m (u k) := spacing_primary_ge hS (hu k)
      rcases hx with rfl | hx
      · constructor
        · exact le_refl x
        · push_neg at h; linarith
      · have := ih (c + (m + uniformQ 0 m (u k))) (k + 1) x hx
        constructor
        · linarith [this.1]
        · exact this.2

theorem backfillPass_mem {m L : ℚ} (u : ℕ → ℚ) (hS : 0 < m) (hu : ∀ i, 0 ≤ u i) :
    ∀ (n : ℕ) (c : ℚ) (k : ℕ), ∀ x ∈ (backfillPass m L u n c k).1,
      c ≤ x ∧ x + m ≤ L := by
  intro n
  induction n with
  | zero => intro c k; simp [backfillPass]
  | succ n ih =>
    intro c k x hx
    rw [backfillPass_succ] at hx
    by_cases h1 : c < L
    · rw [if_pos h1] at hx
      by_cases h2 : c + (m + uniformQ 0 (m * (1/2)) (u k)) ≤ L
      · rw [if_pos h2] at hx
        simp only [List.mem_cons] at hx
        have hsp : m ≤ m + uniformQ 0 (m * (1/2)) (u k) := spacing_backfill_ge hS (hu k)
        rcases hx with rfl | hx
        · exact ⟨le_refl x, by linarith⟩
        · have := ih (c + (m + uniformQ 0 (m * (1/2)) (u k))) (k + 1) x hx
          exact ⟨by linarith [this.1], this.2⟩
      · rw [if_neg h2] at hx
        simp at hx
    · rw [if_neg h1] at hx
      simp at hx

theorem primaryPass_chain {m L : ℚ} (u : ℕ → ℚ) (hS : 0 < m)
    (hu : ∀ i, 0 ≤ u i ∧ u i < 1) :
    ∀ (n : ℕ) (c : ℚ) (k : ℕ),
      List.Chain' (fun a b => a + m ≤ b ∧ b < a + 2 * m)
        ((primaryPass m L u n c k).1 ++ [(primaryPass m L u n c k).2.1]) := by
  intro n
  induction n with
  | zero => intro c k; simp [primaryPass]
  | succ n ih =>
    intro c k
    by_cases h : c + (m + uniformQ 0 m (u k)) > L
    · simp [primaryPass, h]
    · simp only [primaryPass, if_neg h, List.cons_append]
      rw [List.chain'_cons']
      refine ⟨?_, ih _ _⟩
      intro y hy
      rw [primaryPass_head m L u n (c + (m + uniformQ 0 m (u k))) (k + 1)] at hy
      cases hy
      have hge : m ≤ m + uniformQ 0 m (u k) := spacing_primary_ge hS (hu k).1
      have hlt : m + uniformQ 0 m (u k) < 2 * m := spacing_primary_lt hS (hu k).2
      constructor <;> linarith

theorem backfillPass_chain {m L : ℚ} (u : ℕ → ℚ) (hS : 0 < m)
    (hu : ∀ i, 0 ≤ u i ∧ u i < 1) :
    ∀ (n : ℕ) (c : ℚ) (k : ℕ),
      List.Chain' (fun a b => a + m ≤ b ∧ b < a + 2 * m)
        ((backfillPass m L u n c k).1 ++ [(backfillPass m L u n c k).2.1]) := by
  intro n
  induction n with
  | zero => intro c k; simp [backfillPass]
  | succ n ih =>
    intro c k
    rw [backfillPass_succ]
    by_cases h1 : c < L
    · rw [if_pos h1]
      by_cases h2 : c + (m + uniformQ 0 (m * (1/2)) (u k)) ≤ L
      · rw [if_pos h2]
        dsimp only
        rw [List.cons_append, List.chain'_cons']
        refine ⟨?_, ih _ _⟩
        intro y hy
        rw [backfillPass_head m L u n (c + (m + uniformQ 0 (m * (1/2)) (u k))) (k + 1)] at hy
        cases hy
        have hge : m ≤ m + uniformQ 0 (m * (1/2)) (u k) := spacing_backfill_ge hS (hu k).1
        have hlt : m + uniformQ 0 (m * (1/2)) (u k) < 2 * m :=
          spacing_backfill_lt hS (hu k).1 (hu k).2
        constructor <;> linarith
      · rw [if_neg h2]
        simp
    · rw [if_neg h1]
      simp

end Carpark

namespace Carpark

open CarparkSim

theorem positionsPasses_length (m L : ℚ) (nv : ℤ) (u : ℕ → ℚ) :
    (positionsPasses m L nv u).1.length ≤ nv.toNat := by
  unfold positionsPasses
  dsimp only
  rw [List.length_append]
  have l1 := primaryPass_length m L u nv.toNat 0 0
  have l2 := backfillPass_length m L u
    (nv - ((primaryPass m L u nv.toNat 0 0).1.length : ℤ)).toNat
    (primaryPass m L u nv.toNat 0 0).2.1 (primaryPass m L u nv.toNat 0 0).2.2
  omega

theorem positionsPasses_mem {m L : ℚ} (u : ℕ → ℚ) (hS : 0 < m)
    (hu : ∀ i, 0 ≤ u i) (nv : ℤ) :
    ∀ x ∈ (positionsPasses m L nv u).1, 0 ≤ x ∧ x + m ≤ L := by
  unfold positionsPasses
  dsimp only
  intro x hx
  rw [List.mem_append] at hx
  rcases hx with hx | hx
  · exact primaryPass_mem u hS hu nv.toNat 0 0 x hx
  · have hc : (0 : ℚ) ≤ (primaryPass m L u nv.toNat 0 0).2.1 :=
      primaryPass_cur_le L u hS hu nv.toNat 0 0
    have h2 := backfillPass_mem u hS hu
      (nv - ((primaryPass m L u nv.toNat 0 0).1.length : ℤ)).toNat
      (primaryPass m L u nv.toNat 0 0).2.1 (primaryPass m L u nv.toNat 0 0).2.2 x hx
    exact ⟨le_trans hc h2.1, h2.2⟩

theorem positionsPasses_chain {m L : ℚ} (nv : ℤ) (u : ℕ → ℚ) (hS : 0 < m)
    (hu : ∀ i, 0 ≤ u i ∧ u i < 1) :
    List.Chain' (fun a b => a + m ≤ b ∧ b < a + 2 * m) (positionsPasses m L nv u).1 := by
  have h1 := @primaryPass_chain m L u hS hu nv.toNat 0 0
  unfold positionsPasses
  dsimp only
  rcases hP : primaryPass m L u nv.toNat 0 0 with ⟨ps1, c1, k1⟩
  rw [hP] at h1
  dsimp only at h1
  have h2 := @backfillPass_chain m L u hS hu (nv - (ps1.length : ℤ)).toNat c1 k1
  have hh := backfillPass_head m L u (nv - (ps1.length : ℤ)).toNat c1 k1
  rcases hB : backfillPass m L u (nv - (ps1.length : ℤ)).toNat c1 k1 with ⟨ps2, c2, k2⟩
  rw [hB] at h2 hh
  dsimp only at h2 hh
  rw [List.chain'_append] at h1 h2 ⊢
  refine ⟨h1.1, h2.1, ?_⟩
  intro x hx y hy
  cases ps2 with
  | nil => simp at hy
  | cons a t =>
    simp only [List.head?_cons, Option.mem_def, Option.some.injEq] at hy
    simp only [List.cons_append, List.head?_cons, Option.some.injEq] at hh
    cases hy
    rw [hh]
    exact h1.2.2 x hx c1 (by simp)

theorem positionsPasses_head (m L : ℚ) (nv : ℤ) (u : ℕ → ℚ)
    (h : (positionsPasses m L nv u).1 ≠ []) :
    (positionsPasses m L nv u).1.head? = some 0 := by
  have h1 := primaryPass_head m L u nv.toNat 0 0
  unfold positionsPasses at h ⊢
  dsimp only at h ⊢
  revert h
  rcases hP : primaryPass m L u nv.toNat 0 0 with ⟨ps1, c1, k1⟩
  rw [hP] at h1
  dsimp only at h1
  have h2 := backfillPass_head m L u (nv - (ps1.length : ℤ)).toNat c1 k1
  rcases hB : backfillPass m L u (nv - (ps1.length : ℤ)).toNat c1 k1 with ⟨ps2, c2, k2⟩
  rw [hB] at h2
  dsimp only at h2
  intro h
  cases ps1 with
  | cons a t =>
    simp only [List.cons_append, List.head?_cons, Option.some.injEq] at h1 ⊢
    exact h1
  | nil =>
    simp only [List.nil_append, List.head?_cons, Option.some.injEq] at h1
    simp only [List.nil_append] at h ⊢
    cases ps2 with
    | nil => exact absurd rfl h
    | cons b bt =>
      simp only [List.cons_append, List.head?_cons, Option.some.injEq] at h2 ⊢
      rw [h2, h1]

end Carpark

/-- C1: for every segment of length L greater than 0, every min_spacing S
greater than 0, and every requested vehicle count n at least 0, the list
of positions produced by the Packer stage of generate_spawn_positions
contains at most floor(L / S) placements, and every placement distance
along the line lies in the interval from 0 to L. -/
theorem claim_C1_packer_capacity_and_range (m L : ℚ) (n : ℤ) (u : ℕ → ℚ)
    (hL : 0 < L) (hS : 0 < m) (hn : 0 ≤ n) (hu : ∀ i, 0 ≤ u i) :
    ((Carpark.packPositions m L n u).length : ℤ) ≤ ⌊L / m⌋ ∧
      ∀ x ∈ Carpark.packPositions m L n u, 0 ≤ x ∧ x ≤ L := by
  have hq : 0 ≤ L / m := le_of_lt (div_pos hL hS)
  have hfl : CarparkSim.truncQ (L / m) = ⌊L / m⌋ := CarparkSim.truncQ_eq_floor hq
  have hmx0 : 0 ≤ CarparkSim.truncQ (L / m) := hfl ▸ Int.floor_nonneg.mpr hq
  constructor
  · simp only [Carpark.packPositions]
    have hlen := Carpark.positionsPasses_length m L
      (if n > CarparkSim.truncQ (L / m) then CarparkSim.truncQ (L / m) else n) u
    have hnv : (if n > CarparkSim.truncQ (L / m) then CarparkSim.truncQ (L / m) else n) ≤
        CarparkSim.truncQ (L / m) := by split <;> omega
    omega
  · intro x hx
    simp only [Carpark.packPositions] at hx
    have h2 := Carpark.positionsPasses_mem u hS hu _ x hx
    exact ⟨h2.1, by linarith [h2.2]⟩

/-- Witness for C1 at the concrete input min_spacing 2, length 5,
requested count 3, and the constant zero draw stream. -/
theorem claim_C1_packer_capacity_and_range_witness :
    ((Carpark.packPositions 2 5 3 (fun _ => 0)).length : ℤ) ≤ ⌊(5 : ℚ) / 2⌋ ∧
      ∀ x ∈ Carpark.packPositions 2 5 3 (fun _ => 0), 0 ≤ x ∧ x ≤ 5 :=
  claim_C1_packer_capacity_and_range 2 5 3 (fun _ => 0)
    (by norm_num) (by norm_num) (by norm_num) (fun _ => le_rfl)

/-- C2: for every segment length L greater than 0, min_spacing S greater
than 0, requested count n at least 0, and every sequence of unit random
draws, the distances produced by the Packer stage of
generate_spawn_positions are pairwise strictly increasing in generation
order, and each consecutive pair differs by at least S and by less than
2 times S, reflecting spacings drawn from the interval from S up to but
excluding 2 S in the primary pass and from S up to but excluding 1.5 S
in the backfill pass. -/
theorem claim_C2_packer_monotonic_spacing (m L : ℚ) (n : ℤ) (u : ℕ → ℚ)
    (hL : 0 < L) (hS : 0 < m) (hn : 0 ≤ n) (hu : ∀ i, 0 ≤ u i ∧ u i < 1) :
    List.Pairwise (· < ·) (Carpark.packPositions m L n u) ∧
      List.Chain' (fun a b => a + m ≤ b ∧ b < a + 2 * m)
        (Carpark.packPositions m L n u) := by
  have hch : List.Chain' (fun a b => a + m ≤ b ∧ b < a + 2 * m)
      (Carpark.packPositions m L n u) := by
    simp only [Carpark.packPositions]
    exact Carpark.positionsPasses_chain _ u hS hu
  refine ⟨?_, hch⟩
  have hlt : List.Chain' (· < ·) (Carpark.packPositions m L n u) :=
    hch.imp (fun a b h => by linarith [h.1])
  exact List.chain'_iff_pairwise.mp hlt

/-- Witness for C2 at the concrete input min_spacing 2, length 5,
requested count 3, and the constant zero draw stream. -/
theorem claim_C2_packer_monotonic_spacing_witness :
    List.Pairwise (· < ·) (Carpark.packPositions 2 5 3 (fun _ => 0)) ∧
      List.Chain' (fun a b => a + 2 ≤ b ∧ b < a + 2 * 2)
        (Carpark.packPositions 2 5 3 (fun _ => 0)) :=
  claim_C2_packer_monotonic_spacing 2 5 3 (fun _ => 0)
    (by norm_num) (by norm_num) (by norm_num) (fun _ => ⟨le_rfl, by norm_num⟩)

/-- C10: whenever the Packer stage of generate_spawn_positions produces a
non empty list of positions, the first position is exactly 0, so the
first transform sits at the perpendicular offset of the segment start
point. -/
theorem claim_C10_first_position_zero (m L : ℚ) (n : ℤ) (u : ℕ → ℚ)
    (h : Carpark.packPositions m L n u ≠ []) :
    (Carpark.packPositions m L n u).head? = some 0 := by
  simp only [Carpark.packPositions] at h ⊢
  exact Carpark.positionsPasses_head m L _ u h

/-- Witness for C10 at the concrete input min_spacing 2, length 5,
requested count 3, and the constant zero draw stream, where the packer
produces the two positions 0 and 2. -/
theorem claim_C10_first_position_zero_witness :
    (Carpark.packPositions 2 5 3 (fun _ => 0)).head? = some 0 :=
  claim_C10_first_position_zero 2 5 3 (fun _ => 0) (by decide)

namespace CarparkSim

theorem safeDiv_of_ne (a b : ℚ) (h : b ≠ 0) : safeDiv a b = some (a / b) := by
  unfold safeDiv
  rw [if_neg h]

theorem safeDiv_zero (a : ℚ) : safeDiv a 0 = none := by
  unfold safeDiv
  rw [if_pos rfl]

end CarparkSim

namespace Carpark

open CarparkSim

theorem compute_perpendicular_vector_degenerate (S : Spawner) (a b : Vec3)
    (h : S.sqrtQ ((b.x - a.x) ^ 2 + (b.y - a.y) ^ 2 + (b.z - a.z) ^ 2) < 1/1000) :
    compute_perpendicular_vector S a b = some (⟨1, 0, 0⟩, ⟨1, 0, 0⟩) := by
  simp only [compute_perpendicular_vector]
  rw [if_pos h]

theorem compute_perpendicular_vector_total (S : Spawner) (a b : Vec3) :
    ∃ r, compute_perpendicular_vector S a b = some r := by
  by_cases h1 : S.sqrtQ ((b.x - a.x) ^ 2 + (b.y - a.y) ^ 2 + (b.z - a.z) ^ 2) < 1/1000
  · exact ⟨_, compute_perpendicular_vector_degenerate S a b h1⟩
  · have hll : S.sqrtQ ((b.x - a.x) ^ 2 + (b.y - a.y) ^ 2 + (b.z - a.z) ^ 2) ≠ 0 := by
      intro h0
      exact h1 (by rw [h0]; norm_num)
    simp only [compute_perpendicular_vector]
    rw [if_neg h1, safeDiv_of_ne _ _ hll, safeDiv_of_ne _ _ hll, safeDiv_of_ne _ _ hll]
    dsimp only
    split
    next h2 =>
      have hpl := ne_of_gt (lt_trans (by norm_num : (0 : ℚ) < 1/1000) h2)
      rw [safeDiv_of_ne _ _ hpl, safeDiv_of_ne _ _ hpl]
      exact ⟨_, rfl⟩
    next h2 => exact ⟨_, rfl⟩

theorem generate_spawn_positions_ok_eq (S : Spawner) (a b : Vec3) (st : String)
    (n : ℤ) (m : ℚ) (u : ℕ → ℚ) (sides : List String) (p d : Vec3)
    (hperp : compute_perpendicular_vector S a b = some (p, d))
    (hside : sidesToUse st = .ok sides) (hm : m ≠ 0) :
    generate_spawn_positions S a b st n m u = .ok
      (transformLoop S a b
        (S.sqrtQ ((b.x - a.x) ^ 2 + (b.y - a.y) ^ 2 + (b.z - a.z) ^ 2)) p d sides u
        (positionsPasses m
          (S.sqrtQ ((b.x - a.x) ^ 2 + (b.y - a.y) ^ 2 + (b.z - a.z) ^ 2))
          (if n > truncQ (S.sqrtQ ((b.x - a.x) ^ 2 + (b.y - a.y) ^ 2 + (b.z - a.z) ^ 2) / m)
            then truncQ (S.sqrtQ ((b.x - a.x) ^ 2 + (b.y - a.y) ^ 2 + (b.z - a.z) ^ 2) / m)
            else n) u).1
        (positionsPasses m
          (S.sqrtQ ((b.x - a.x) ^ 2 + (b.y - a.y) ^ 2 + (b.z - a.z) ^ 2))
          (if n > truncQ (S.sqrtQ ((b.x - a.x) ^ 2 + (b.y - a.y) ^ 2 + (b.z - a.z) ^ 2) / m)
            then truncQ (S.sqrtQ ((b.x - a.x) ^ 2 + (b.y - a.y) ^ 2 + (b.z - a.z) ^ 2) / m)
            else n) u).2.2) := by
  unfold generate_spawn_positions
  rw [hperp]
  dsimp only
  rw [hside]
  dsimp only
  rw [safeDiv_of_ne _ _ hm]

theorem positionsPasses_nonpos (m L : ℚ) (nv : ℤ) (u : ℕ → ℚ) (h : nv ≤ 0) :
    positionsPasses m L nv u = ([], 0, 0) := by
  have h1 : nv.toNat = 0 := by omega
  unfold positionsPasses
  rw [h1]
  dsimp only [primaryPass]
  have h2 : (nv - ((List.length ([] : List ℚ)) : ℤ)).toNat = 0 := by
    simp only [List.length_nil, Nat.cast_zero, sub_zero]
    omega
  rw [h2]
  dsimp only [backfillPass]
  simp

end Carpark

/-- C4: for every pair of input points, compute_perpendicular_vector (the
Resolver) never raises and never divides by zero, every division being
guarded by the length checks, so the result is always some value; and for
every degenerate segment, one whose Euclidean length as computed by the
sqrt oracle is below 0.001, it returns direction (1,0,0) and
perpendicular (1,0,0). -/
theorem claim_C4_resolver_total_and_degenerate (S : CarparkSim.Spawner)
    (a b : CarparkSim.Vec3) :
    (∃ r, Carpark.compute_perpendicular_vector S a b = some r) ∧
      (S.sqrtQ ((b.x - a.x) ^ 2 + (b.y - a.y) ^ 2 + (b.z - a.z) ^ 2) < 1/1000 →
        Carpark.compute_perpendicular_vector S a b =
          some (⟨1, 0, 0⟩, ⟨1, 0, 0⟩)) :=
  ⟨Carpark.compute_perpendicular_vector_total S a b,
   Carpark.compute_perpendicular_vector_degenerate S a b⟩

/-- Witness for C4 on the fully degenerate segment whose start and end
coincide, with the sqrt oracle returning 0 there. -/
theorem claim_C4_resolver_total_and_degenerate_witness :
    Carpark.compute_perpendicular_vector
        ⟨fun _ _ => [], 0, 0, fun _ => 0, fun _ _ => 0⟩ ⟨0, 0, 0⟩ ⟨0, 0, 0⟩ =
      some (⟨1, 0, 0⟩, ⟨1, 0, 0⟩) :=
  (claim_C4_resolver_total_and_degenerate
    ⟨fun _ _ => [], 0, 0, fun _ => 0, fun _ _ => 0⟩ ⟨0, 0, 0⟩ ⟨0, 0, 0⟩).2 (by decide)

/-- C3 counterexample: a call with the negative min_spacing minus 1, a
caller contract violation, does not fail fast: it succeeds and silently
returns the empty placement list. -/
theorem claim_C3_counterexample_negative_spacing_silent :
    Carpark.generate_spawn_positions
        ⟨fun _ _ => [], 0, 0, fun _ => 0, fun _ _ => 0⟩
        ⟨0, 0, 0⟩ ⟨10, 0, 0⟩ "left" 5 (-1) (fun _ => 0) = .ok [] := rfl

/-- C3 as amended: a negative min_spacing is not surfaced as an error;
for every valid side spec the call silently succeeds with an empty
placement list, because the truncated capacity is nonpositive, the
requested count clamps to it, and both passes produce nothing.  Only a
min_spacing of exactly 0 raises, as ZeroDivisionError. -/
theorem claim_C3_amended_negative_spacing_silent (S : CarparkSim.Spawner)
    (a b : CarparkSim.Vec3) (st : String) (n : ℤ) (m : ℚ) (u : ℕ → ℚ)
    (hside : st = "left" ∨ st = "right" ∨ st = "both") (hm : m < 0)
    (hsq : 0 ≤ S.sqrtQ ((b.x - a.x) ^ 2 + (b.y - a.y) ^ 2 + (b.z - a.z) ^ 2)) :
    Carpark.generate_spawn_positions S a b st n m u = .ok [] := by
  obtain ⟨⟨p, d⟩, hperp⟩ := Carpark.compute_perpendicular_vector_total S a b
  have hsides : ∃ sides, Carpark.sidesToUse st = .ok sides := by
    rcases hside with h | h | h <;> subst h <;> exact ⟨_, rfl⟩
  obtain ⟨sides, hsides⟩ := hsides
  rw [Carpark.generate_spawn_positions_ok_eq S a b st n m u sides p d hperp hsides hm.ne]
  have hratio : S.sqrtQ ((b.x - a.x) ^ 2 + (b.y - a.y) ^ 2 + (b.z - a.z) ^ 2) / m ≤ 0 :=
    div_nonpos_iff.mpr (Or.inl ⟨hsq, hm.le⟩)
  have hmx := CarparkSim.truncQ_nonpos hratio
  have hnv : (if n > CarparkSim.truncQ
        (S.sqrtQ ((b.x - a.x) ^ 2 + (b.y - a.y) ^ 2 + (b.z - a.z) ^ 2) / m)
      then CarparkSim.truncQ
        (S.sqrtQ ((b.x - a.x) ^ 2 + (b.y - a.y) ^ 2 + (b.z - a.z) ^ 2) / m)
      else n) ≤ 0 := by
    split
    · exact hmx
    · next hgt => omega
  rw [Carpark.positionsPasses_nonpos _ _ _ _ hnv]
  rfl

/-- Witness for the amended C3 at a concrete negative spacing input with
side both. -/
theorem claim_C3_amended_negative_spacing_silent_witness :
    Carpark.generate_spawn_positions
        ⟨fun _ _ => [], 1, 1, fun _ => 4, fun _ _ => 0⟩
        ⟨0, 0, 0⟩ ⟨10, 0, 0⟩ "both" 7 (-2) (fun _ => 0) = .ok [] :=
  claim_C3_amended_negative_spacing_silent
    ⟨fun _ _ => [], 1, 1, fun _ => 4, fun _ _ => 0⟩
    ⟨0, 0, 0⟩ ⟨10, 0, 0⟩ "both" 7 (-2) (fun _ => 0)
    (Or.inr (Or.inr rfl)) (by norm_num) (by decide)

/-- C7: for every side_type outside the set left, right, both,
generate_spawn_positions fails with the invalid side error carrying that
side_type, before producing any placements; and for a side_type in the
set it never fails with an invalid side error. -/
theorem claim_C7_invalid_side_error (S : CarparkSim.Spawner)
    (a b : CarparkSim.Vec3) (st : String) (n : ℤ) (m : ℚ) (u : ℕ → ℚ) :
    ((st ≠ "left" ∧ st ≠ "right" ∧ st ≠ "both") →
      Carpark.generate_spawn_positions S a b st n m u =
        .error (.invalidSide st)) ∧
    ((st = "left" ∨ st = "right" ∨ st = "both") →
      ∀ msg, Carpark.generate_spawn_positions S a b st n m u ≠
        .error (.invalidSide msg)) := by
  obtain ⟨⟨p, d⟩, hperp⟩ := Carpark.compute_perpendicular_vector_total S a b
  constructor
  · rintro ⟨h1, h2, h3⟩
    unfold Carpark.generate_spawn_positions
    rw [hperp]
    dsimp only
    unfold Carpark.sidesToUse
    rw [if_neg h1, if_neg h2, if_neg h3]
  · intro hval msg
    have hsides : ∃ sides, Carpark.sidesToUse st = .ok sides := by
      rcases hval with h | h | h <;> subst h <;> exact ⟨_, rfl⟩
    obtain ⟨sides, hsides⟩ := hsides
    by_cases hm : m = 0
    · unfold Carpark.generate_spawn_positions
      rw [hperp]
      dsimp only
      rw [hsides]
      dsimp only
      rw [hm, CarparkSim.safeDiv_zero]
      simp
    · rw [Carpark.generate_spawn_positions_ok_eq S a b st n m u sides p d hperp hsides hm]
      simp

/-- Witness for C7: the side_type up is rejected with the invalid side
error, and the side_type left is not rejected with one. -/
theorem claim_C7_invalid_side_error_witness :
    Carpark.generate_spawn_positions
        ⟨fun _ _ => [], 0, 0, fun _ => 0, fun _ _ => 0⟩
        ⟨0, 0, 0⟩ ⟨10, 0, 0⟩ "up" 5 1 (fun _ => 0) =
      .error (.invalidSide "up") ∧
    Carpark.generate_spawn_positions
        ⟨fun _ _ => [], 0, 0, fun _ => 0, fun _ _ => 0⟩
        ⟨0, 0, 0⟩ ⟨10, 0, 0⟩ "left" 5 1 (fun _ => 0) ≠
      .error (.invalidSide "left") :=
  ⟨(claim_C7_invalid_side_error _ _ _ "up" 5 1 _).1 ⟨by decide, by decide, by decide⟩,
   (claim_C7_invalid_side_error _ _ _ "left" 5 1 _).2 (Or.inl rfl) "left"⟩

/-- C5: when the ground query returns no hit, get_ground_height falls
back to the original z, and the synthesized pose z coordinate equals the
pre query parking position z, which is the interpolated point z, plus
spawn_height, with no error raised. -/
theorem claim_C5_ground_miss_fallback (S : CarparkSim.Spawner)
    (hc : ∀ a b, S.castRay a b = []) :
    (∀ loc, Carpark.get_ground_height S loc = loc.z) ∧
    (∀ (a b : CarparkSim.Vec3) (L pos : ℚ) (p d : CarparkSim.Vec3)
        (side : String) (j : ℚ),
      (Carpark.synthesizePose S a b L p d pos side j).loc.z =
        (Carpark.interpPoint a b L pos).z + S.spawn_height) := by
  have hg : ∀ loc, Carpark.get_ground_height S loc = loc.z := by
    intro loc
    unfold Carpark.get_ground_height
    dsimp only
    rw [hc]
  refine ⟨hg, ?_⟩
  intro a b L pos p d side j
  unfold Carpark.synthesizePose
  dsimp only
  rw [hg]

/-- Witness for C5: a spawner whose ray cast always misses, with
spawn_height 7, placed on a segment at height 3. -/
theorem claim_C5_ground_miss_fallback_witness :
    (Carpark.synthesizePose ⟨fun _ _ => [], 7, 3, fun _ => 0, fun _ _ => 0⟩
        ⟨0, 0, 3⟩ ⟨10, 0, 3⟩ 10 ⟨0, 1, 0⟩ ⟨1, 0, 0⟩ 2 "left" 0).loc.z =
      (Carpark.interpPoint ⟨0, 0, 3⟩ ⟨10, 0, 3⟩ 10 2).z + (7 : ℚ) :=
  (claim_C5_ground_miss_fallback ⟨fun _ _ => [], 7, 3, fun _ => 0, fun _ _ => 0⟩
    (fun _ _ => rfl)).2 ⟨0, 0, 3⟩ ⟨10, 0, 3⟩ 10 2 ⟨0, 1, 0⟩ ⟨1, 0, 0⟩ "left" 0

namespace Carpark

open CarparkSim

theorem synthesizePose_rot (S : Spawner) (a b : Vec3) (L : ℚ) (p : Vec3)
    (pos : ℚ) (side : String) (j : ℚ) (hat : S.atan2deg 0 1 = 0) :
    (synthesizePose S a b L p ⟨1, 0, 0⟩ pos side j).rot.pitch = 0 ∧
    (synthesizePose S a b L p ⟨1, 0, 0⟩ pos side j).rot.roll = 0 ∧
    (synthesizePose S a b L p ⟨1, 0, 0⟩ pos side j).rot.yaw =
      (if side = "left" then (90 : ℚ) else -90) + (-2 + 4 * j) := by
  unfold synthesizePose
  dsimp only
  rw [hat]
  refine ⟨rfl, rfl, ?_⟩
  unfold uniformQ
  by_cases h1 : side = "left"
  · simp only [if_pos h1]
    ring
  · simp only [if_neg h1]
    by_cases h2 : side = "right"
    · simp only [if_pos h2]
      ring
    · simp only [if_neg h2]
      ring

theorem pose_pair_rot_ok (S : Spawner) (a b : Vec3) (L : ℚ) (p : Vec3)
    (pos : ℚ) (side : String) (j : ℚ) (hat : S.atan2deg 0 1 = 0)
    (hside : side = "left" ∨ side = "right") (hj : 0 ≤ j ∧ j ≤ 1) :
    (synthesizePose S a b L p ⟨1, 0, 0⟩ pos side j).rot.pitch = 0 ∧
      (synthesizePose S a b L p ⟨1, 0, 0⟩ pos side j).rot.roll = 0 ∧
      (side = "left" →
        |(synthesizePose S a b L p ⟨1, 0, 0⟩ pos side j).rot.yaw - 90| ≤ 2) ∧
      (side = "right" →
        |(synthesizePose S a b L p ⟨1, 0, 0⟩ pos side j).rot.yaw + 90| ≤ 2) := by
  obtain ⟨hp, hr, hy⟩ := synthesizePose_rot S a b L p pos side j hat
  refine ⟨hp, hr, ?_, ?_⟩
  · intro hl
    rw [hy, if_pos hl, abs_le]
    constructor <;> linarith [hj.1, hj.2]
  · intro hrr
    have hnl : side ≠ "left" := by rw [hrr]; decide
    rw [hy, if_neg hnl, abs_le]
    constructor <;> linarith [hj.1, hj.2]

theorem transformLoop_east_rot (S : Spawner) (a b : Vec3) (L : ℚ) (p : Vec3)
    (sides : List String) (u : ℕ → ℚ)
    (hsides : sides = ["left"] ∨ sides = ["right"] ∨ sides = ["left", "right"])
    (hat : S.atan2deg 0 1 = 0) (hu : ∀ i, 0 ≤ u i ∧ u i ≤ 1) :
    ∀ (ps : List ℚ) (k : ℕ),
      ∀ ts ∈ transformLoop S a b L p ⟨1, 0, 0⟩ sides u ps k,
        ts.1.rot.pitch = 0 ∧ ts.1.rot.roll = 0 ∧
          (ts.2 = "left" → |ts.1.rot.yaw - 90| ≤ 2) ∧
          (ts.2 = "right" → |ts.1.rot.yaw + 90| ≤ 2) := by
  intro ps
  induction ps with
  | nil =>
    intro k ts hts
    simp [transformLoop] at hts
  | cons pos rest ih =>
    intro k ts hts
    rcases hsides with rfl | rfl | rfl
    · simp only [transformLoop, List.length_cons, List.length_nil, List.mem_cons,
        List.getD] at hts
      rcases hts with rfl | hts
      · exact pose_pair_rot_ok S a b L p pos _ _ hat (Or.inl rfl) (hu _)
      · exact ih _ ts hts
    · simp only [transformLoop, List.length_cons, List.length_nil, List.mem_cons,
        List.getD] at hts
      rcases hts with rfl | hts
      · exact pose_pair_rot_ok S a b L p pos _ _ hat (Or.inr rfl) (hu _)
      · exact ih _ ts hts
    · simp only [transformLoop, List.length_cons, List.length_nil, List.mem_cons,
        List.getD] at hts
      by_cases hk : u k < 1/2
      · rw [if_pos hk] at hts
        rcases hts with rfl | hts
        · exact pose_pair_rot_ok S a b L p pos _ _ hat (Or.inl rfl) (hu _)
        · exact ih _ ts hts
      · rw [if_neg hk] at hts
        rcases hts with rfl | hts
        · exact pose_pair_rot_ok S a b L p pos _ _ hat (Or.inr rfl) (hu _)
        · exact ih _ ts hts

end Carpark

/-- C6: for every segment resolved to the unit line direction (1,0,0),
every produced transform has pitch and roll exactly 0, every placement
assigned side left has yaw within 2 degrees of plus 90, and every
placement assigned side right has yaw within 2 degrees of minus 90,
the base yaw being the atan2 of the direction components, which is 0
for a line running due east. -/
theorem claim_C6_east_line_yaw (S : CarparkSim.Spawner) (a b : CarparkSim.Vec3)
    (st : String) (n : ℤ) (m : ℚ) (u : ℕ → ℚ) (p : CarparkSim.Vec3)
    (out : List (CarparkSim.Transform × String))
    (hperp : Carpark.compute_perpendicular_vector S a b = some (p, ⟨1, 0, 0⟩))
    (hat : S.atan2deg 0 1 = 0)
    (hu : ∀ i, 0 ≤ u i ∧ u i ≤ 1)
    (hout : Carpark.generate_spawn_positions S a b st n m u = .ok out) :
    ∀ ts ∈ out,
      ts.1.rot.pitch = 0 ∧ ts.1.rot.roll = 0 ∧
        (ts.2 = "left" → |ts.1.rot.yaw - 90| ≤ 2) ∧
        (ts.2 = "right" → |ts.1.rot.yaw + 90| ≤ 2) := by
  cases hsd : Carpark.sidesToUse st with
  | error e =>
    exfalso
    unfold Carpark.generate_spawn_positions at hout
    rw [hperp] at hout
    dsimp only at hout
    rw [hsd] at hout
    exact absurd hout (by simp)
  | ok sides =>
    by_cases hm : m = 0
    · exfalso
      unfold Carpark.generate_spawn_positions at hout
      rw [hperp] at hout
      dsimp only at hout
      rw [hsd] at hout
      dsimp only at hout
      rw [hm, CarparkSim.safeDiv_zero] at hout
      exact absurd hout (by simp)
    · have hsides3 : sides = ["left"] ∨ sides = ["right"] ∨ sides = ["left", "right"] := by
        unfold Carpark.sidesToUse at hsd
        split_ifs at hsd with hl hr hb
        · injection hsd with h
          exact Or.inl h.symm
        · injection hsd with h
          exact Or.inr (Or.inl h.symm)
        · injection hsd with h
          exact Or.inr (Or.inr h.symm)
      rw [Carpark.generate_spawn_positions_ok_eq S a b st n m u sides p ⟨1, 0, 0⟩
        hperp hsd hm] at hout
      have hout2 : out = Carpark.transformLoop S a b
          (S.sqrtQ ((b.x - a.x) ^ 2 + (b.y - a.y) ^ 2 + (b.z - a.z) ^ 2)) p
          ⟨1, 0, 0⟩ sides u
          (Carpark.positionsPasses m
            (S.sqrtQ ((b.x - a.x) ^ 2 + (b.y - a.y) ^ 2 + (b.z - a.z) ^ 2))
            (if n > CarparkSim.truncQ
                (S.sqrtQ ((b.x - a.x) ^ 2 + (b.y - a.y) ^ 2 + (b.z - a.z) ^ 2) / m)
              then CarparkSim.truncQ
                (S.sqrtQ ((b.x - a.x) ^ 2 + (b.y - a.y) ^ 2 + (b.z - a.z) ^ 2) / m)
              else n) u).1
          (Carpark.positionsPasses m
            (S.sqrtQ ((b.x - a.x) ^ 2 + (b.y - a.y) ^ 2 + (b.z - a.z) ^ 2))
            (if n > CarparkSim.truncQ
                (S.sqrtQ ((b.x - a.x) ^ 2 + (b.y - a.y) ^ 2 + (b.z - a.z) ^ 2) / m)
              then CarparkSim.truncQ
                (S.sqrtQ ((b.x - a.x) ^ 2 + (b.y - a.y) ^ 2 + (b.z - a.z) ^ 2) / m)
              else n) u).2.2 := by
        injection hout with h
        exact h.symm
      rw [hout2]
      exact Carpark.transformLoop_east_rot S a b _ p sides u hsides3 hat hu _ _

/-- Witness for C6: the one transform generated for the segment from the
origin to (5,0,0) on the left side, whose yaw is 88 degrees. -/
theorem claim_C6_east_line_yaw_witness :
    ((⟨⟨0, 0, 0⟩, ⟨0, 88, 0⟩⟩ : CarparkSim.Transform)).rot.pitch = 0 ∧
      ((⟨⟨0, 0, 0⟩, ⟨0, 88, 0⟩⟩ : CarparkSim.Transform)).rot.roll = 0 ∧
      |((⟨⟨0, 0, 0⟩, ⟨0, 88, 0⟩⟩ : CarparkSim.Transform)).rot.yaw - 90| ≤ 2 :=
  have h := claim_C6_east_line_yaw
    ⟨fun _ _ => [], 0, 0, fun s => if s = 25 then 5 else if s = 1 then 1 else 0,
      fun _ _ => 0⟩
    ⟨0, 0, 0⟩ ⟨5, 0, 0⟩ "left" 1 2 (fun _ => 0) ⟨0, 1, 0⟩
    [(⟨⟨0, 0, 0⟩, ⟨0, 88, 0⟩⟩, "left")]
    (by decide) rfl (fun _ => ⟨le_rfl, by norm_num⟩) rfl
    (⟨⟨0, 0, 0⟩, ⟨0, 88, 0⟩⟩, "left") (by simp)
  ⟨h.1, h.2.1, h.2.2.1 rfl⟩

namespace Carpark

theorem hasStart_iff : ∀ (n h : List Char), hasStart n h = true ↔ ∃ t, h = n ++ t := by
  intro n
  induction n with
  | nil =>
    intro h
    simp [hasStart]
  | cons a as ih =>
    intro h
    cases h with
    | nil =>
      simp [hasStart]
    | cons b bs =>
      simp only [hasStart, Bool.and_eq_true, decide_eq_true_eq, ih, List.cons_append,
        List.cons.injEq]
      constructor
      · rintro ⟨rfl, t, rfl⟩
        exact ⟨t, rfl, rfl⟩
      · rintro ⟨t, rfl, rfl⟩
        exact ⟨rfl, t, rfl⟩

theorem hasSub_iff (n : List Char) : ∀ h, hasSub n h = true ↔ ∃ l r, h = l ++ (n ++ r) := by
  intro h
  induction h with
  | nil =>
    simp only [hasSub, hasStart_iff]
    constructor
    · rintro ⟨t, ht⟩
      exact ⟨[], t, by simpa using ht⟩
    · rintro ⟨l, r, hl⟩
      rcases List.append_eq_nil.mp hl.symm with ⟨rfl, h2⟩
      rcases List.append_eq_nil.mp h2 with ⟨rfl, rfl⟩
      exact ⟨[], rfl⟩
  | cons c cs ih =>
    simp only [hasSub, Bool.or_eq_true, ih, hasStart_iff]
    constructor
    · rintro (⟨t, ht⟩ | ⟨l, r, rfl⟩)
      · exact ⟨[], t, by simpa using ht⟩
      · exact ⟨c :: l, r, by simp⟩
    · rintro ⟨l, r, hl⟩
      cases l with
      | nil =>
        left
        exact ⟨r, by simpa using hl⟩
      | cons x xs =>
        right
        rw [List.cons_append] at hl
        injection hl with h1 h2
        exact ⟨xs, r, h2⟩

end Carpark

/-- C8: filter_vehicles_for_line keeps, in their original order, exactly
the candidates whose lowercased id does not contain any lowercased
exclude keyword as a substring; in particular the pool truck.a, van.b,
car.c filtered with the keywords truck and van is exactly car.c. -/
theorem claim_C8_exclude_keyword_filter (bps : List Carpark.Blueprint)
    (kws : List String) :
    Carpark.filter_vehicles_for_line bps (some kws) =
        bps.filter (fun bp => !(Carpark.is_excluded kws bp)) ∧
      (∀ bp, bp ∈ Carpark.filter_vehicles_for_line bps (some kws) ↔
          bp ∈ bps ∧ ∀ kw ∈ kws, ¬ ∃ l r,
            bp.id.data.map Char.toLower = l ++ (kw.data.map Char.toLower ++ r)) ∧
      Carpark.filter_vehicles_for_line
          [⟨"truck.a"⟩, ⟨"van.b"⟩, ⟨"car.c"⟩] (some ["truck", "van"]) =
        [⟨"car.c"⟩] := by
  have hfold : ∀ (l acc : List Carpark.Blueprint),
      l.foldl (fun filtered bp =>
        if Carpark.is_excluded kws bp then filtered else filtered ++ [bp]) acc =
      acc ++ l.filter (fun bp => !(Carpark.is_excluded kws bp)) := by
    intro l
    induction l with
    | nil =>
      intro acc
      simp
    | cons bp rest ih =>
      intro acc
      by_cases h : Carpark.is_excluded kws bp
      · simp [h, ih]
      · simp [h, ih]
  have heq : Carpark.filter_vehicles_for_line bps (some kws) =
      bps.filter (fun bp => !(Carpark.is_excluded kws bp)) := by
    unfold Carpark.filter_vehicles_for_line
    dsimp only [Option.getD]
    rw [hfold]
    simp
  refine ⟨heq, ?_, by decide⟩
  intro bp
  rw [heq, List.mem_filter]
  have hiff : (!(Carpark.is_excluded kws bp)) = true ↔
      ∀ kw ∈ kws, ¬ ∃ l r,
        bp.id.data.map Char.toLower = l ++ (kw.data.map Char.toLower ++ r) := by
    unfold Carpark.is_excluded Carpark.strContains
    rw [Bool.not_eq_true', Bool.eq_false_iff, ne_eq, List.any_eq_true]
    constructor
    · intro hno kw hkw hex
      exact hno ⟨kw, hkw, (Carpark.hasSub_iff _ _).mpr hex⟩
    · rintro hall ⟨kw, hkw, hs⟩
      exact hall kw hkw ((Carpark.hasSub_iff _ _).mp hs)
  rw [hiff]

theorem variant_compute_perpendicular_vector_eq :
    ∀ (S : CarparkSim.Spawner) (a b : CarparkSim.Vec3),
      Carpark.compute_perpendicular_vector S a b =
        CarparkStatic.compute_perpendicular_vector S a b :=
  fun _ _ _ => rfl

theorem variant_sidesToUse_eq :
    ∀ st, Carpark.sidesToUse st = CarparkStatic.sidesToUse st :=
  fun _ => rfl

theorem variant_synthesizePose_eq :
    ∀ (S : CarparkSim.Spawner) (a b : CarparkSim.Vec3) (L : ℚ)
      (pv ld : CarparkSim.Vec3) (pos : ℚ) (side : String) (j : ℚ),
      Carpark.synthesizePose S a b L pv ld pos side j =
        CarparkStatic.synthesizePose S a b L pv ld pos side j :=
  fun _ _ _ _ _ _ _ _ _ => rfl

theorem variant_primaryPass_eq (m L : ℚ) (u : ℕ → ℚ) :
    ∀ (n : ℕ) (c : ℚ) (k : ℕ),
      Carpark.primaryPass m L u n c k = CarparkStatic.primaryPass m L u n c k := by
  intro n
  induction n with
  | zero =>
    intro c k
    rfl
  | succ n ih =>
    intro c k
    simp only [Carpark.primaryPass, CarparkStatic.primaryPass, ih]

theorem variant_backfillPass_eq (m L : ℚ) (u : ℕ → ℚ) :
    ∀ (n : ℕ) (c : ℚ) (k : ℕ),
      Carpark.backfillPass m L u n c k = CarparkStatic.backfillPass m L u n c k := by
  intro n
  induction n with
  | zero =>
    intro c k
    rfl
  | succ n ih =>
    intro c k
    simp only [Carpark.backfillPass, CarparkStatic.backfillPass, ih]

theorem variant_positionsPasses_eq (m L : ℚ) (nv : ℤ) (u : ℕ → ℚ) :
    Carpark.positionsPasses m L nv u = CarparkStatic.positionsPasses m L nv u := by
  unfold Carpark.positionsPasses CarparkStatic.positionsPasses
  simp only [variant_primaryPass_eq, variant_backfillPass_eq]

theorem variant_transformLoop_eq (S : CarparkSim.Spawner) (a b : CarparkSim.Vec3)
    (L : ℚ) (pv ld : CarparkSim.Vec3) (sides : List String) (u : ℕ → ℚ) :
    ∀ (ps : List ℚ) (k : ℕ),
      Carpark.transformLoop S a b L pv ld sides u ps k =
        CarparkStatic.transformLoop S a b L pv ld sides u ps k := by
  intro ps
  induction ps with
  | nil =>
    intro k
    rfl
  | cons pos rest ih =>
    intro k
    simp only [Carpark.transformLoop, CarparkStatic.transformLoop,
      variant_synthesizePose_eq, ih]

/-- C9: the two script variants compute extensionally equal spawn
positions: for every spawner configuration, segment, side spec, count,
spacing, and draw stream, generate_spawn_positions of spawn_carpark.py
and of spawn_carpark_static.py return the same value, and likewise
compute_perpendicular_vector. -/
theorem claim_C9_variant_equivalence :
    (∀ (S : CarparkSim.Spawner) (a b : CarparkSim.Vec3) (st : String) (n : ℤ)
        (m : ℚ) (u : ℕ → ℚ),
      Carpark.generate_spawn_positions S a b st n m u =
        CarparkStatic.generate_spawn_positions S a b st n m u) ∧
      (∀ (S : CarparkSim.Spawner) (a b : CarparkSim.Vec3),
        Carpark.compute_perpendicular_vector S a b =
          CarparkStatic.compute_perpendicular_vector S a b) := by
  refine ⟨?_, variant_compute_perpendicular_vector_eq⟩
  intro S a b st n m u
  unfold Carpark.generate_spawn_positions CarparkStatic.generate_spawn_positions
  rw [← variant_compute_perpendicular_vector_eq]
  cases hp : Carpark.compute_perpendicular_vector S a b with
  | none => rfl
  | some pd =>
    obtain ⟨p, d⟩ := pd
    dsimp only
    rw [← variant_sidesToUse_eq]
    cases hs : Carpark.sidesToUse st with
    | error e => rfl
    | ok sides =>
      dsimp only
      cases hd : CarparkSim.safeDiv
          (S.sqrtQ ((b.x - a.x) ^ 2 + (b.y - a.y) ^ 2 + (b.z - a.z) ^ 2)) m with
      | none => rfl
      | some ratio =>
        dsimp only
        rw [variant_positionsPasses_eq, variant_transformLoop_eq]

/-- Witness for C8: the concrete pool truck.a, van.b, car.c with the
exclude keywords truck and van filters to exactly car.c. -/
theorem claim_C8_exclude_keyword_filter_witness :
    Carpark.filter_vehicles_for_line
        [⟨"truck.a"⟩, ⟨"van.b"⟩, ⟨"car.c"⟩] (some ["truck", "van"]) =
      [⟨"car.c"⟩] :=
  (claim_C8_exclude_keyword_filter
    [⟨"truck.a"⟩, ⟨"van.b"⟩, ⟨"car.c"⟩] ["truck", "van"]).2.2
